import Mathlib

/- Formal model of scripts/table_all_reml.py.

   Python strings are modelled as lists of characters (`Str`); Python
   floats are modelled as exact rationals via the decimal-literal subset
   of `float()` (the report tokens are plain decimal numbers, and the
   properties under study only distinguish parse success from failure).
   Fallible operations return `Option`. -/

abbrev Str : Type := List Char

/- Whitespace characters recognised by str.strip() and str.split()
   (the ASCII subset; the report files are ASCII). -/
def wsChars : Str := [' ', '\t', '\n', '\x0b', '\x0c', '\r']

def isSpace (c : Char) : Bool := wsChars.contains c

/- Python str.strip(): drop whitespace from both ends. -/
def pyStrip (s : Str) : Str :=
  ((s.dropWhile isSpace).reverse.dropWhile isSpace).reverse

/- Python str.split() with no arguments: maximal runs of non-whitespace
   characters, empty tokens discarded.  The accumulator holds the
   current token reversed. -/
def splitAux : Str → Str → List Str
  | [], acc => if acc.isEmpty then [] else [acc.reverse]
  | c :: rest, acc =>
    if isSpace c then
      if acc.isEmpty then splitAux rest [] else acc.reverse :: splitAux rest []
    else
      splitAux rest (c :: acc)

def pySplit (s : Str) : List Str := splitAux s []

/- Digits of a decimal numeral read as a natural number. -/
def digitsToNat (l : Str) : Nat := l.foldl (fun a c => 10 * a + (c.toNat - 48)) 0

/- Exponent part of a float literal, after the 'e'/'E': an optional sign
   followed by at least one digit. -/
def parseExp (s : Str) : Option Int :=
  match s with
  | [] => none
  | '+' :: d => if d ≠ [] ∧ d.all Char.isDigit then some ((digitsToNat d : Int)) else none
  | '-' :: d => if d ≠ [] ∧ d.all Char.isDigit then some (-((digitsToNat d : Int))) else none
  | d => if d.all Char.isDigit then some ((digitsToNat d : Int)) else none

/- Mantissa: digits with at most one decimal point and at least one digit
   overall (Python accepts "1.", ".5" and rejects ".", "1.2.3").  The
   result is the pair (digit string read as an integer, number of digits
   after the point), so that "12.34" gives (1234, 2), i.e. 1234 / 10^2. -/
def parseMantissa (s : Str) : Option (Nat × Nat) :=
  match s.span (fun c => c != '.') with
  | (ip, []) =>
    if ip ≠ [] ∧ ip.all Char.isDigit then some (digitsToNat ip, 0) else none
  | (ip, _ :: fp) =>
    if (ip ≠ [] ∨ fp ≠ []) ∧ ip.all Char.isDigit ∧ fp.all Char.isDigit then
      some (digitsToNat ip * 10 ^ fp.length + digitsToNat fp, fp.length)
    else none

/- The exact rational value of sign * m / 10^fl * 10^z, assembled with
   integer arithmetic and the normalising constructor mkRat. -/
def decValue (neg : Bool) (m : Nat) (fl : Nat) (z : Int) : ℚ :=
  let n : Int := (m * 10 ^ z.toNat : Nat)
  mkRat (if neg then -n else n) (10 ^ fl * 10 ^ (-z).toNat)

/- Python float(): optional sign, mantissa, optional exponent.  Models
   the plain decimal-literal subset (no underscores, "inf" or "nan";
   the report values are plain decimals). -/
def pyFloat? (s : Str) : Option ℚ :=
  let signBody : Bool × Str :=
    match s with
    | '+' :: r => (false, r)
    | '-' :: r => (true, r)
    | r => (false, r)
  match signBody.2.span (fun c => c != 'e' && c != 'E') with
  | (m, []) => (parseMantissa m).map (fun p => decValue signBody.1 p.1 p.2 0)
  | (m, _ :: e) =>
    match parseMantissa m, parseExp e with
    | some p, some z => some (decValue signBody.1 p.1 p.2 z)
    | _, _ => none

/- The fixed extension '.reml' of parse_filename. -/
def remlPat : Str := ['.', 'r', 'e', 'm', 'l']

/- os.path.basename on POSIX: the part after the last '/'. -/
def pyBasename (p : Str) : Str := (p.reverse.takeWhile (fun c => c != '/')).reverse

/- Python str.replace('.reml', ''): delete every occurrence of the
   pattern, scanning left to right and continuing past each removal.
   Fuel-indexed (fuel bounds the number of steps, one per character)
   so that the recursion is structural. -/
def pyReplaceF : Nat → Str → Str
  | _, [] => []
  | 0, s => s
  | n + 1, c :: l =>
    if List.isPrefixOf remlPat (c :: l) then pyReplaceF n ((c :: l).drop 5)
    else c :: pyReplaceF n l

/- basename.replace('.reml', '') from parse_filename. -/
def removeReml (s : Str) : Str := pyReplaceF s.length s

/- Python str.rsplit('.', 1): split at the last '.' when one exists
   (`none` when the string has no dot, in which case rsplit returns a
   single-element list). -/
def rsplitDot : Str → Option (Str × Str)
  | [] => none
  | c :: rest =>
    match rsplitDot rest with
    | some (a, b) => some ((c :: a), b)
    | none => if c = '.' then some (([] : Str), rest) else none

/- parse_filename: take the basename, delete the '.reml' occurrences,
   split at the last dot.  The source's regex fallback
   (re.match of a dotted two-group pattern) can only match a string that
   contains a '.', and rsplit already yields a two-element split on
   exactly those strings, so when the rsplit branch fails the regex
   fails as well and the result is the UNKNOWN fallback. -/
def parse_filename (path : Str) : Str × Str :=
  let name := removeReml (pyBasename path)
  match rsplitDot name with
  | some (p, t) => (p, t)
  | none => (name, ['U', 'N', 'K', 'N', 'O', 'W', 'N'])

/- Keyword and label constants of parse_reml_file. -/
def naTok : Str := ['N', 'A']
def convergedKw : Str := ['C', 'o', 'n', 'v', 'e', 'r', 'g', 'e', 'd']
def componentKw : Str := ['C', 'o', 'm', 'p', 'o', 'n', 'e', 'n', 't']
def herK1Lbl : Str := ['H', 'e', 'r', '_', 'K', '1']
def herK2Lbl : Str := ['H', 'e', 'r', '_', 'K', '2']
def herK3Lbl : Str := ['H', 'e', 'r', '_', 'K', '3']
def herAllLbl : Str := ['H', 'e', 'r', '_', 'A', 'l', 'l']

/- The result dict of parse_reml_file: a convergence token and one
   optional value row per recognised component. -/
structure FileResult where
  converged : Option Str
  her_k1 : Option (List (Option ℚ))
  her_k2 : Option (List (Option ℚ))
  her_k3 : Option (List (Option ℚ))
  her_all : Option (List (Option ℚ))
deriving DecidableEq

/- One value token: 'NA' maps to None, otherwise float() with None on
   failure. -/
def parseVal (t : Str) : Option ℚ := if t = naTok then none else pyFloat? t

/- The `while len(parsed_values) < 5: parsed_values.append(None)` loop:
   right-pad to five entries. -/
def padTo5 (l : List (Option ℚ)) : List (Option ℚ) :=
  l ++ List.replicate (5 - l.length) none

/- The value row built from the tokens after the component label:
   first five tokens parsed, then padded to five entries. -/
def rowOf (values : List Str) : List (Option ℚ) :=
  padTo5 ((values.take 5).map parseVal)

/- The Converged scan: the loop breaks at the first line starting with
   'Converged' whether or not that line has a second token, so only the
   first such line is ever consulted. -/
def findConverged : List Str → Option Str
  | [] => none
  | l :: rest =>
    if List.isPrefixOf convergedKw l then (pySplit (pyStrip l))[1]?
    else findConverged rest

/- The body of the component-section loop for one line: skip blank
   lines and lines with fewer than two tokens, store the value row under
   the recognised label, ignore other labels. -/
def processLine (r : FileResult) (rawLine : Str) : FileResult :=
  let line := pyStrip rawLine
  if line = [] then r
  else
    let parts := pySplit line
    if parts.length < 2 then r
    else
      let component := parts.headD []
      let row := rowOf parts.tail
      if component = herK1Lbl then { r with her_k1 := some row }
      else if component = herK2Lbl then { r with her_k2 := some row }
      else if component = herK3Lbl then { r with her_k3 := some row }
      else if component = herAllLbl then { r with her_all := some row }
      else r

/- Index of the first line starting with 'Component'. -/
def findHeaderIdx : List Str → Option Nat
  | [] => none
  | l :: rest =>
    if List.isPrefixOf componentKw l then some 0
    else (findHeaderIdx rest).map (fun i => i + 1)

/- The lines following the first line starting with 'Component'
   (empty when no such header exists, matching the early return). -/
def componentSection (lines : List Str) : List Str :=
  match findHeaderIdx lines with
  | none => []
  | some i => lines.drop (i + 1)

/- parse_reml_file on the file's lines (each line given without its
   trailing newline, which none of the operations observe). -/
def parse_reml_file (lines : List Str) : FileResult :=
  (componentSection lines).foldl processLine
    { converged := findConverged lines, her_k1 := none, her_k2 := none,
      her_k3 := none, her_all := none }

/- One globbed input file: its path and its text lines. -/
structure REMLFile where
  path : Str
  lines : List Str
deriving DecidableEq

/- The condensed per-(phenotype, type) record stored in
   summary_data_dict. -/
structure SummaryRec where
  converged : Option Str
  her_k1 : Option ℚ
  her_k2 : Option ℚ
  her_k3 : Option ℚ
  her_all : Option ℚ
deriving DecidableEq

/- `parsed[k][0] if parsed[k] and parsed[k][0] is not None else None`:
   an absent or empty row (falsy) and a None first entry all give None. -/
def firstVal (o : Option (List (Option ℚ))) : Option ℚ :=
  o.bind (fun row => (row.head?).getD none)

def condense (r : FileResult) : SummaryRec :=
  { converged := r.converged, her_k1 := firstVal r.her_k1,
    her_k2 := firstVal r.her_k2, her_k3 := firstVal r.her_k3,
    her_all := firstVal r.her_all }

/- One row of the Detailed Information table. -/
structure DetailRow where
  phenotype : Str
  typeName : Str
  component : Str
  converged : Option Str
  heritability : Option ℚ
  se : Option ℚ
  size : Option ℚ
  mega_intensity : Option ℚ
  se_2 : Option ℚ
deriving DecidableEq

/- The detailed rows of one file, in the fixed component order; a
   component contributes a row when its data is truthy (present and a
   nonempty list).  Rows stored by the parser always have five entries,
   so the getD defaults are never consulted. -/
def detailRowsOf (phen typeName : Str) (r : FileResult) : List DetailRow :=
  ([(herK1Lbl, r.her_k1), (herK2Lbl, r.her_k2), (herK3Lbl, r.her_k3),
    (herAllLbl, r.her_all)]).filterMap
    (fun nd =>
      nd.2.bind (fun row =>
        if row.isEmpty then none
        else some
          { phenotype := phen, typeName := typeName, component := nd.1,
            converged := r.converged, heritability := row.getD 0 none,
            se := row.getD 1 none, size := row.getD 2 none,
            mega_intensity := row.getD 3 none, se_2 := row.getD 4 none }))

/- summary_data_dict modelled as insertion-ordered association lists
   (Python dict semantics: updating an existing key keeps its position,
   a new key is appended). -/
abbrev TypeMap := List (Str × SummaryRec)
abbrev SummaryDict := List (Str × TypeMap)

def setType (m : TypeMap) (t : Str) (v : SummaryRec) : TypeMap :=
  match m with
  | [] => [(t, v)]
  | (k, w) :: rest => if k = t then (k, v) :: rest else (k, w) :: setType rest t v

def setSummary (d : SummaryDict) (p t : Str) (v : SummaryRec) : SummaryDict :=
  match d with
  | [] => [(p, [(t, v)])]
  | (k, m) :: rest =>
    if k = p then (k, setType m t v) :: rest else (k, m) :: setSummary rest p t v

def lookupType (m : TypeMap) (t : Str) : Option SummaryRec :=
  match m with
  | [] => none
  | (k, v) :: rest => if k = t then some v else lookupType rest t

def lookupPhen (d : SummaryDict) (p : Str) : Option TypeMap :=
  match d with
  | [] => none
  | (k, m) :: rest => if k = p then some m else lookupPhen rest p

def summaryLookup (d : SummaryDict) (p t : Str) : Option SummaryRec :=
  (lookupPhen d p).bind (fun m => lookupType m t)

/- Python string comparison: lexicographic by code point. -/
def strLt : Str → Str → Bool
  | [], [] => false
  | [], _ :: _ => true
  | _ :: _, [] => false
  | a :: s, b :: t => if a = b then strLt s t else decide (a.toNat < b.toNat)

/- sorted(reml_files): a stable sort by path (stable insertion sort,
   which agrees with Python's stable sort under this total order). -/
def insertFile (f : REMLFile) : List REMLFile → List REMLFile
  | [] => [f]
  | g :: rest =>
    if strLt g.path f.path then g :: insertFile f rest else f :: g :: rest

def sortFiles (l : List REMLFile) : List REMLFile := l.foldr insertFile []

/- The body of the main loop for one file: decode the filename, parse
   the file, overwrite the summary entry, append the detailed rows. -/
def step2 (acc : SummaryDict × List DetailRow) (f : REMLFile) :
    SummaryDict × List DetailRow :=
  let pt := parse_filename f.path
  let parsed := parse_reml_file f.lines
  (setSummary acc.1 pt.1 pt.2 (condense parsed),
   acc.2 ++ detailRowsOf pt.1 pt.2 parsed)

/- The two accumulator tables after the loop over sorted files. -/
def buildTables (files : List REMLFile) : SummaryDict × List DetailRow :=
  (sortFiles files).foldl step2 ([], [])

/- The nine keys of every detailed row dict, in their dict order. -/
def detailColumnNames : List Str :=
  [['P','h','e','n','o','t','y','p','e'],
   ['T','y','p','e'],
   ['C','o','m','p','o','n','e','n','t'],
   ['C','o','n','v','e','r','g','e','d'],
   ['H','e','r','i','t','a','b','i','l','i','t','y'],
   ['S','E'],
   ['S','i','z','e'],
   ['M','e','g','a','_','I','n','t','e','n','s','i','t','y'],
   ['S','E','_','2']]

/- pandas.DataFrame(list_of_dicts).columns: the keys in first-seen
   order.  Every detailed row dict has exactly the nine keys above in
   this order, and an empty list of dicts yields no columns at all. -/
def dfColumns (rows : List DetailRow) : List Str :=
  match rows with
  | [] => []
  | _ :: _ => detailColumnNames

/- The saved workbook: the summary table (sheet 1 cell layout with
   merged headers is not modelled; no property under study concerns it)
   and the detailed sheet's header row and data rows.  Header cells are
   written in bold; styling is not part of the cell-content model. -/
structure Workbook where
  summary : SummaryDict
  detailHeader : List Str
  detailRows : List DetailRow
deriving DecidableEq

/- Observable events of a run, in order. -/
inductive Event where
  | warnedEmpty : Event
  | readFile : Str → Event
  | depError : Event
  | savedOutput : Str → Event
deriving DecidableEq

structure MainResult where
  events : List Event
  output : Option Workbook
  normalExit : Bool
deriving DecidableEq

/- The driver main(): `files` is the glob result, `libsAvailable` says
   whether the openpyxl/pandas import succeeds.  The order of events
   mirrors the source: the empty-match check first, then every file is
   read and parsed in sorted order, and only then is the import
   attempted; both early returns are plain returns, so the process exit
   is normal in every branch. -/
def mainRun (files : List REMLFile) (outPath : Str) (libsAvailable : Bool) :
    MainResult :=
  if files.isEmpty then
    { events := [Event.warnedEmpty], output := none, normalExit := true }
  else
    let sorted := sortFiles files
    let reads := sorted.map (fun f => Event.readFile f.path)
    let tables := buildTables files
    if libsAvailable then
      { events := reads ++ [Event.savedOutput outPath],
        output := some { summary := tables.1, detailHeader := dfColumns tables.2,
                         detailRows := tables.2 },
        normalExit := true }
    else
      { events := reads ++ [Event.depError], output := none, normalExit := true }

/- Specification-side helpers (used only to state properties). -/

/- Whether '.reml' occurs anywhere in a string. -/
def hasReml : Str → Bool
  | [] => false
  | c :: rest => List.isPrefixOf remlPat (c :: rest) || hasReml rest

/- The row that one component-section line stores under `label`, if
   any: mirrors the skip conditions of processLine. -/
def rowFor (label : Str) (rawLine : Str) : Option (List (Option ℚ)) :=
  let line := pyStrip rawLine
  if line = [] then none
  else
    let parts := pySplit line
    if parts.length < 2 then none
    else if parts.headD [] = label then some (rowOf parts.tail) else none

/- The first-some combinator used to describe dict-style overwriting. -/
def orE {α : Type} (x : Option α) (y : Option α) : Option α :=
  match x with
  | some v => some v
  | none => y

/- The row stored by the last line of the section that stores one under
   `label`. -/
def lastStoredRow (label : Str) : List Str → Option (List (Option ℚ))
  | [] => none
  | line :: rest => orE (lastStoredRow label rest) (rowFor label line)

/- The last file of a list whose decoded filename is (p, t). -/
def lastMatch (p t : Str) : List REMLFile → Option REMLFile
  | [] => none
  | f :: rest =>
    orE (lastMatch p t rest)
      (if parse_filename f.path = (p, t) then some f else none)

theorem pyReplaceF_nil (n : Nat) : pyReplaceF n [] = [] := by cases n <;> rfl

/- The pattern '.reml' has no nontrivial border, so no occurrence of it
   can straddle the boundary of `u ++ '.reml'`: if it is not a prefix of
   the nonempty `u`, it is not a prefix of `u ++ '.reml'` either. -/
theorem remlPat_no_cross (u : Str) (hu : u ≠ [])
    (h : List.isPrefixOf remlPat u = false) :
    List.isPrefixOf remlPat (u ++ remlPat) = false := by
  rcases u with _ | ⟨a, _ | ⟨b, _ | ⟨c, _ | ⟨d, _ | ⟨e, rest⟩⟩⟩⟩⟩
  · exact absurd rfl hu
  · simp [remlPat, List.isPrefixOf]
  · simp [remlPat, List.isPrefixOf]
  · simp [remlPat, List.isPrefixOf]
  · simp [remlPat, List.isPrefixOf]
  · simp [remlPat, List.isPrefixOf] at h ⊢
    exact h

/- Deleting '.reml' from `s ++ '.reml'` returns `s` when '.reml' does
   not occur in `s` (given enough fuel). -/
theorem pyReplaceF_append (n : Nat) :
    ∀ s : Str, s.length + 5 ≤ n → hasReml s = false →
      pyReplaceF n (s ++ remlPat) = s := by
  induction n with
  | zero => intro s hlen _; omega
  | succ n ih =>
    intro s hlen h
    match s with
    | [] =>
      show pyReplaceF (n + 1) remlPat = []
      have e1 : pyReplaceF (n + 1) remlPat =
          if List.isPrefixOf remlPat remlPat then pyReplaceF n (remlPat.drop 5)
          else '.' :: pyReplaceF n ['r', 'e', 'm', 'l'] := rfl
      rw [e1, if_pos (by decide)]
      exact pyReplaceF_nil n
    | c :: l =>
      have h' : List.isPrefixOf remlPat (c :: l) = false ∧ hasReml l = false := by
        simpa [hasReml] using h
      have hkey : List.isPrefixOf remlPat (c :: (l ++ remlPat)) = false :=
        remlPat_no_cross (c :: l) (by simp) h'.1
      show pyReplaceF (n + 1) (c :: (l ++ remlPat)) = c :: l
      have e1 : pyReplaceF (n + 1) (c :: (l ++ remlPat)) =
          if List.isPrefixOf remlPat (c :: (l ++ remlPat)) then
            pyReplaceF n ((c :: (l ++ remlPat)).drop 5)
          else c :: pyReplaceF n (l ++ remlPat) := rfl
      rw [e1, if_neg (by simp [hkey])]
      have hlen' : l.length + 5 ≤ n := by
        simp only [List.length_cons] at hlen; omega
      rw [ih l hlen' h'.2]

theorem removeReml_append (s : Str) (h : hasReml s = false) :
    removeReml (s ++ remlPat) = s := by
  unfold removeReml
  exact pyReplaceF_append _ s (by simp [remlPat]) h

theorem rsplitDot_no_dot (q : Str) (h : '.' ∉ q) : rsplitDot q = none := by
  induction q with
  | nil => rfl
  | cons c rest ih =>
    have hc : ¬(c = '.') := fun e => h (e ▸ List.mem_cons_self c rest)
    have hr : rsplitDot rest = none := ih (fun m => h (List.mem_cons_of_mem c m))
    simp [rsplitDot, hr, hc]

theorem rsplitDot_last (p q : Str) (h : '.' ∉ q) :
    rsplitDot (p ++ '.' :: q) = some (p, q) := by
  induction p with
  | nil => simp [rsplitDot, rsplitDot_no_dot q h]
  | cons a p ih => simp [rsplitDot, ih]

/-- Claim C1, counterexample: the decoder removes every occurrence of
'.reml' from the base name, not just the trailing extension, so for the
base name 'X.reml.Q.reml' (phenotype part 'X.reml', category 'Q') it
returns phenotype 'X' instead of 'X.reml'. -/
theorem claim_C1_counterexample :
    parse_filename ("X.reml.Q.reml".toList) = ("X".toList, "Q".toList) ∧
    parse_filename ("X.reml.Q.reml".toList) ≠ ("X.reml".toList, "Q".toList) := by
  constructor
  · decide
  · decide

/-- Claim C1 (amended): for every input file path whose base name has the
form P.Q followed by the fixed extension '.reml', where '.reml' occurs in
the base name only as the final extension (in particular not inside P or
Q) and the category Q contains no dot, the filename decoder returns
phenotype P and category Q, splitting at the last delimiter (so P itself
may contain dots). -/
theorem claim_C1_amended (path P Q : Str)
    (hb : pyBasename path = P ++ '.' :: (Q ++ remlPat))
    (hocc : hasReml (P ++ '.' :: Q) = false)
    (hQ : '.' ∉ Q) :
    parse_filename path = (P, Q) := by
  unfold parse_filename
  rw [hb]
  have hshape : P ++ '.' :: (Q ++ remlPat) = (P ++ '.' :: Q) ++ remlPat := by
    simp
  rw [hshape, removeReml_append _ hocc]
  dsimp only
  rw [rsplitDot_last P Q hQ]

/-- Witness for claim C1 (amended) at the path 'data/GYP_BLUP.SV.reml'. -/
theorem claim_C1_witness :
    parse_filename ("data/GYP_BLUP.SV.reml".toList) =
      ("GYP_BLUP".toList, "SV".toList) :=
  claim_C1_amended ("data/GYP_BLUP.SV.reml".toList) ("GYP_BLUP".toList)
    ("SV".toList) (by decide) (by decide) (by decide)

theorem processLine_converged (r : FileResult) (l : Str) :
    (processLine r l).converged = r.converged := by
  dsimp only [processLine]
  repeat' split
  all_goals rfl

theorem foldl_processLine_converged (L : List Str) (r : FileResult) :
    (L.foldl processLine r).converged = r.converged := by
  induction L generalizing r with
  | nil => rfl
  | cons l L ih => rw [List.foldl_cons, ih, processLine_converged]

theorem parse_converged (lines : List Str) :
    (parse_reml_file lines).converged = findConverged lines := by
  unfold parse_reml_file
  rw [foldl_processLine_converged]

/-- Claim C10: only the first line beginning with 'Converged' is ever
consulted; if that line has fewer than two whitespace-separated tokens,
the convergence value is absent, regardless of any later line beginning
with the same keyword. -/
theorem claim_C10 (pre : List Str) (l0 : Str) (post : List Str)
    (hpre : ∀ l ∈ pre, List.isPrefixOf convergedKw l = false)
    (hl0 : List.isPrefixOf convergedKw l0 = true)
    (hshort : (pySplit (pyStrip l0)).length < 2) :
    (parse_reml_file (pre ++ l0 :: post)).converged = none := by
  rw [parse_converged]
  induction pre with
  | nil =>
    simp only [List.nil_append, findConverged, hl0, if_true]
    exact List.getElem?_eq_none (by omega)
  | cons l pre ih =>
    have h1 : List.isPrefixOf convergedKw l = false := hpre l (List.mem_cons_self l pre)
    simp only [List.cons_append, findConverged, h1, Bool.false_eq_true, if_false]
    exact ih (fun x hx => hpre x (List.mem_cons_of_mem l hx))

/-- Witness for claim C10: a first 'Converged' line with a single token
followed by a well-formed 'Converged YES' line still yields no
convergence value. -/
theorem claim_C10_witness :
    (pySplit (pyStrip ("Converged".toList))).length < 2 ∧
    (parse_reml_file ["Converged".toList, "Converged YES".toList]).converged = none :=
  ⟨by decide,
   claim_C10 [] ("Converged".toList) ["Converged YES".toList]
     (fun l hl => absurd hl (List.not_mem_nil l)) (by decide) (by decide)⟩

theorem orE_none_right {α : Type} (x : Option α) : orE x none = x := by
  cases x <;> rfl

theorem orE_assoc {α : Type} (x y z : Option α) :
    orE (orE x y) z = orE x (orE y z) := by
  cases x <;> cases y <;> rfl

theorem labels_pairwise :
    herK1Lbl ≠ herK2Lbl ∧ herK1Lbl ≠ herK3Lbl ∧ herK1Lbl ≠ herAllLbl ∧
    herK2Lbl ≠ herK1Lbl ∧ herK2Lbl ≠ herK3Lbl ∧ herK2Lbl ≠ herAllLbl ∧
    herK3Lbl ≠ herK1Lbl ∧ herK3Lbl ≠ herK2Lbl ∧ herK3Lbl ≠ herAllLbl ∧
    herAllLbl ≠ herK1Lbl ∧ herAllLbl ≠ herK2Lbl ∧ herAllLbl ≠ herK3Lbl := by
  decide

theorem processLine_fields (r : FileResult) (l : Str) :
    (processLine r l).her_k1 = orE (rowFor herK1Lbl l) r.her_k1 ∧
    (processLine r l).her_k2 = orE (rowFor herK2Lbl l) r.her_k2 ∧
    (processLine r l).her_k3 = orE (rowFor herK3Lbl l) r.her_k3 ∧
    (processLine r l).her_all = orE (rowFor herAllLbl l) r.her_all := by
  obtain ⟨d12, d13, d1A, d21, d23, d2A, d31, d32, d3A, dA1, dA2, dA3⟩ :=
    labels_pairwise
  by_cases h1 : pyStrip l = []
  · simp [processLine, rowFor, h1, orE]
  by_cases h2 : (pySplit (pyStrip l)).length < 2
  · simp [processLine, rowFor, h1, h2, orE]
  by_cases h3 : (pySplit (pyStrip l)).head?.getD [] = herK1Lbl
  · simp [processLine, rowFor, h1, h2, h3, d12, d13, d1A, orE]
  by_cases h4 : (pySplit (pyStrip l)).head?.getD [] = herK2Lbl
  · simp [processLine, rowFor, h1, h2, h3, h4, d21, d23, d2A, orE]
  by_cases h5 : (pySplit (pyStrip l)).head?.getD [] = herK3Lbl
  · simp [processLine, rowFor, h1, h2, h3, h4, h5, d31, d32, d3A, orE]
  by_cases h6 : (pySplit (pyStrip l)).head?.getD [] = herAllLbl
  · simp [processLine, rowFor, h1, h2, h3, h4, h5, h6, dA1, dA2, dA3, orE]
  · simp [processLine, rowFor, h1, h2, h3, h4, h5, h6, orE]

theorem foldl_fields (L : List Str) : ∀ r : FileResult,
    (L.foldl processLine r).her_k1 = orE (lastStoredRow herK1Lbl L) r.her_k1 ∧
    (L.foldl processLine r).her_k2 = orE (lastStoredRow herK2Lbl L) r.her_k2 ∧
    (L.foldl processLine r).her_k3 = orE (lastStoredRow herK3Lbl L) r.her_k3 ∧
    (L.foldl processLine r).her_all = orE (lastStoredRow herAllLbl L) r.her_all := by
  induction L with
  | nil => intro r; exact ⟨rfl, rfl, rfl, rfl⟩
  | cons l L ih =>
    intro r
    rw [List.foldl_cons]
    have hp := processLine_fields r l
    have hi := ih (processLine r l)
    refine ⟨?_, ?_, ?_, ?_⟩
    · rw [hi.1, hp.1]; simp only [lastStoredRow]; rw [orE_assoc]
    · rw [hi.2.1, hp.2.1]; simp only [lastStoredRow]; rw [orE_assoc]
    · rw [hi.2.2.1, hp.2.2.1]; simp only [lastStoredRow]; rw [orE_assoc]
    · rw [hi.2.2.2, hp.2.2.2]; simp only [lastStoredRow]; rw [orE_assoc]

theorem parse_fields (lines : List Str) :
    (parse_reml_file lines).her_k1 =
      lastStoredRow herK1Lbl (componentSection lines) ∧
    (parse_reml_file lines).her_k2 =
      lastStoredRow herK2Lbl (componentSection lines) ∧
    (parse_reml_file lines).her_k3 =
      lastStoredRow herK3Lbl (componentSection lines) ∧
    (parse_reml_file lines).her_all =
      lastStoredRow herAllLbl (componentSection lines) := by
  have h := foldl_fields (componentSection lines)
    { converged := findConverged lines, her_k1 := none, her_k2 := none,
      her_k3 := none, her_all := none }
  unfold parse_reml_file
  exact ⟨h.1.trans (orE_none_right _), h.2.1.trans (orE_none_right _),
    h.2.2.1.trans (orE_none_right _), h.2.2.2.trans (orE_none_right _)⟩

/-- Claim C9: when the component section contains several lines bearing
the same recognized label, the stored row is the one parsed from the
last such (storable) line — each component field of the parse result
equals the row contributed by the last line of the section that stores
under that label. -/
theorem claim_C9 (lines : List Str) :
    (parse_reml_file lines).her_k1 =
      lastStoredRow herK1Lbl (componentSection lines) ∧
    (parse_reml_file lines).her_k2 =
      lastStoredRow herK2Lbl (componentSection lines) ∧
    (parse_reml_file lines).her_k3 =
      lastStoredRow herK3Lbl (componentSection lines) ∧
    (parse_reml_file lines).her_all =
      lastStoredRow herAllLbl (componentSection lines) :=
  parse_fields lines

theorem rowOf_length (vals : List Str) : (rowOf vals).length = 5 := by
  unfold rowOf padTo5
  simp only [List.length_append, List.length_replicate, List.length_map,
    List.length_take]
  omega

theorem rowFor_length (label l : Str) (row : List (Option ℚ))
    (h : rowFor label l = some row) : row.length = 5 := by
  dsimp only [rowFor] at h
  split at h
  · exact Option.noConfusion h
  · split at h
    · exact Option.noConfusion h
    · split at h
      · injection h with h'
        subst h'
        exact rowOf_length _
      · exact Option.noConfusion h

theorem lastStoredRow_length (label : Str) (L : List Str)
    (row : List (Option ℚ)) (h : lastStoredRow label L = some row) :
    row.length = 5 := by
  induction L with
  | nil => exact Option.noConfusion h
  | cons l L ih =>
    simp only [lastStoredRow, orE] at h
    cases hL : lastStoredRow label L with
    | some v =>
      rw [hL] at h
      injection h with h'
      subst h'
      exact ih hL
    | none =>
      rw [hL] at h
      exact rowFor_length label l row h

/-- Claim C8: every ComponentRow stored in a FileResult by the parser
has exactly five entries, for every input file content. -/
theorem claim_C8 (lines : List Str) (row : List (Option ℚ))
    (h : (parse_reml_file lines).her_k1 = some row ∨
         (parse_reml_file lines).her_k2 = some row ∨
         (parse_reml_file lines).her_k3 = some row ∨
         (parse_reml_file lines).her_all = some row) :
    row.length = 5 := by
  have hf := parse_fields lines
  rcases h with h | h | h | h
  · rw [hf.1] at h; exact lastStoredRow_length _ _ _ h
  · rw [hf.2.1] at h; exact lastStoredRow_length _ _ _ h
  · rw [hf.2.2.1] at h; exact lastStoredRow_length _ _ _ h
  · rw [hf.2.2.2] at h; exact lastStoredRow_length _ _ _ h

/-- Witness for claim C8 at a file whose Her_K1 line carries one value
token. -/
theorem claim_C8_witness :
    ([some (mkRat 1 1), none, none, none, none] : List (Option ℚ)).length = 5 :=
  claim_C8 [componentKw, ['H','e','r','_','K','1',' ','1']]
    [some (mkRat 1 1), none, none, none, none] (Or.inl (by decide))

theorem componentSection_two (line : Str) :
    componentSection [componentKw, line] = [line] := by
  have hkw : List.isPrefixOf componentKw componentKw = true := by decide
  simp [componentSection, findHeaderIdx, hkw]

/- Parsing the minimal file [header, line] where `line` tokenises as a
   Her_K1 label followed by at least one value token stores the
   corresponding row. -/
theorem parse_two_lines (line : Str) (vals : List Str)
    (hsplit : pySplit (pyStrip line) = herK1Lbl :: vals)
    (hne : vals ≠ []) :
    (parse_reml_file [componentKw, line]).her_k1 = some (rowOf vals) := by
  unfold parse_reml_file
  rw [componentSection_two]
  have hnz : pyStrip line ≠ [] := by
    intro e
    rw [e] at hsplit
    exact List.noConfusion hsplit
  have hlen : ¬((pySplit (pyStrip line)).length < 2) := by
    rw [hsplit]
    simp only [List.length_cons]
    have : 0 < vals.length := List.length_pos.mpr hne
    omega
  show (processLine _ line).her_k1 = some (rowOf vals)
  dsimp only [processLine]
  rw [if_neg hnz, if_neg hlen, hsplit]
  simp

theorem rowOf_get_low (vals : List Str) (i : Nat)
    (h1 : i < vals.length) (h2 : i < 5) :
    (rowOf vals)[i]? = some (parseVal (vals.getD i [])) := by
  unfold rowOf padTo5
  rw [List.getElem?_append,
    if_pos (by simp only [List.length_map, List.length_take]; omega),
    List.getElem?_map, List.getElem?_take]
  rw [if_pos h2, List.getD_eq_getElem?_getD]
  cases hv : vals[i]? with
  | none =>
    have := List.getElem?_eq_some_iff.mpr ⟨h1, rfl⟩
    rw [hv] at this
    exact Option.noConfusion this
  | some v => rfl

theorem rowOf_get_high (vals : List Str) (i : Nat)
    (hlo : vals.length ≤ i) (hlen : vals.length < 5) (h2 : i < 5) :
    (rowOf vals)[i]? = some none := by
  unfold rowOf padTo5
  have ht : vals.take 5 = vals := List.take_of_length_le (by omega)
  rw [ht]
  rw [List.getElem?_append_right (by simp; omega)]
  rw [List.length_map, List.getElem?_replicate, if_pos (by omega)]

/-- Claim C2, counterexample: a component-section line consisting of a
recognized label and zero value tokens is skipped by the
`len(parts) < 2` guard, so no ComponentRow is produced for it at all
(the claim asserts an all-absent row would be produced). -/
theorem claim_C2_counterexample :
    (parse_reml_file [componentKw, herK1Lbl]).her_k1 = none ∧
    (parse_reml_file [componentKw, herK1Lbl]).her_k1 ≠
      some (List.replicate 5 none) := by
  constructor
  · decide
  · decide

/-- Claim C2 (amended): for every component-section line that begins
with a component label followed by at least one and fewer than five
value tokens, the parser produces a ComponentRow for that label in
which the missing trailing positions are absent (right-padded with
null); a line carrying the label alone, with zero value tokens, is
skipped and produces no row. -/
theorem claim_C2_amended (line : Str) (vals : List Str)
    (hsplit : pySplit (pyStrip line) = herK1Lbl :: vals)
    (hne : vals ≠ []) (hlt : vals.length < 5) :
    (parse_reml_file [componentKw, line]).her_k1 = some (rowOf vals) ∧
    (rowOf vals).length = 5 ∧
    ∀ i, vals.length ≤ i → i < 5 → (rowOf vals)[i]? = some none :=
  ⟨parse_two_lines line vals hsplit hne, rowOf_length vals,
   fun i hlo h2 => rowOf_get_high vals i hlo hlt h2⟩

/-- Witness for claim C2 (amended): the line 'Her_K1 0.5 NA' has two
value tokens, so positions 2, 3, 4 of its stored row are absent. -/
theorem claim_C2_witness :
    (parse_reml_file [componentKw, "Her_K1 0.5 NA".toList]).her_k1 =
      some (rowOf ["0.5".toList, "NA".toList]) ∧
    (rowOf ["0.5".toList, "NA".toList])[3]? = some none := by
  have h := claim_C2_amended ("Her_K1 0.5 NA".toList)
    ["0.5".toList, "NA".toList] (by decide) (by decide) (by decide)
  exact ⟨h.1, h.2.2 3 (by decide) (by decide)⟩

/-- Claim C6: in a stored component row, the token 'NA' maps to an
absent value, any other token maps to the result of float parsing
(absent exactly on parse failure), and each position of the row is the
parse of the corresponding token — parsing one malformed token does not
disturb the others or abort the file. -/
theorem claim_C6 (line : Str) (vals : List Str) (i : Nat)
    (hsplit : pySplit (pyStrip line) = herK1Lbl :: vals)
    (hne : vals ≠ []) (hi : i < vals.length) (h5 : i < 5) :
    (parse_reml_file [componentKw, line]).her_k1 = some (rowOf vals) ∧
    (rowOf vals)[i]? = some (parseVal (vals.getD i [])) ∧
    parseVal naTok = none ∧
    (vals.getD i [] ≠ naTok →
      parseVal (vals.getD i []) = pyFloat? (vals.getD i [])) := by
  refine ⟨parse_two_lines line vals hsplit hne, rowOf_get_low vals i hi h5,
    rfl, fun hna => ?_⟩
  unfold parseVal
  rw [if_neg hna]

/-- Witness for claim C6 at the line 'Her_K1 0.5 NA xy': position 2
holds the unparseable token 'xy' and maps to an absent value while the
row itself is stored. -/
theorem claim_C6_witness :
    (parse_reml_file [componentKw, "Her_K1 0.5 NA xy".toList]).her_k1 =
      some (rowOf ["0.5".toList, "NA".toList, "xy".toList]) ∧
    (rowOf ["0.5".toList, "NA".toList, "xy".toList])[2]? = some none := by
  have h := claim_C6 ("Her_K1 0.5 NA xy".toList)
    ["0.5".toList, "NA".toList, "xy".toList] 2 (by decide) (by decide)
    (by decide) (by decide)
  exact ⟨h.1, h.2.1.trans (by decide)⟩

theorem lookupType_setType_self (m : TypeMap) (t : Str) (v : SummaryRec) :
    lookupType (setType m t v) t = some v := by
  induction m with
  | nil => simp [setType, lookupType]
  | cons kv rest ih =>
    obtain ⟨k, w⟩ := kv
    by_cases hk : k = t
    · simp [setType, lookupType, hk]
    · simp [setType, lookupType, hk, ih]

theorem lookupType_setType_ne (m : TypeMap) (t : Str) (v : SummaryRec)
    (u : Str) (h : u ≠ t) : lookupType (setType m t v) u = lookupType m u := by
  induction m with
  | nil => simp [setType, lookupType, Ne.symm h]
  | cons kv rest ih =>
    obtain ⟨k, w⟩ := kv
    by_cases hk : k = t
    · subst hk
      simp [setType, lookupType, Ne.symm h]
    · simp [setType, lookupType, hk, ih]

theorem summaryLookup_set_self (d : SummaryDict) (p t : Str) (v : SummaryRec) :
    summaryLookup (setSummary d p t v) p t = some v := by
  induction d with
  | nil => simp [setSummary, summaryLookup, lookupPhen, lookupType]
  | cons km rest ih =>
    obtain ⟨k, m⟩ := km
    by_cases hk : k = p
    · simp [setSummary, summaryLookup, lookupPhen, hk, lookupType_setType_self]
    · simpa [setSummary, summaryLookup, lookupPhen, hk] using ih

theorem summaryLookup_set_ne (d : SummaryDict) (p t : Str) (v : SummaryRec)
    (q u : Str) (h : ¬(p = q ∧ t = u)) :
    summaryLookup (setSummary d p t v) q u = summaryLookup d q u := by
  induction d with
  | nil =>
    by_cases hp : p = q
    · subst hp
      have ht : ¬(t = u) := fun e => h ⟨rfl, e⟩
      simp [setSummary, summaryLookup, lookupPhen, lookupType, ht]
    · simp [setSummary, summaryLookup, lookupPhen, hp]
  | cons km rest ih =>
    obtain ⟨k, m⟩ := km
    by_cases hk : k = p
    · subst hk
      by_cases hq : k = q
      · subst hq
        have ht : ¬(t = u) := fun e => h ⟨rfl, e⟩
        simp [setSummary, summaryLookup, lookupPhen,
          lookupType_setType_ne m t v u (fun e => ht e.symm)]
      · simp [setSummary, summaryLookup, lookupPhen, hq]
    · by_cases hq : k = q
      · subst hq
        simp [setSummary, summaryLookup, lookupPhen, hk]
      · simpa [setSummary, summaryLookup, lookupPhen, hk, hq] using ih

theorem foldl_summary (L : List REMLFile) :
    ∀ (acc : SummaryDict × List DetailRow) (p t : Str),
    summaryLookup (L.foldl step2 acc).1 p t =
      orE ((lastMatch p t L).map (fun f => condense (parse_reml_file f.lines)))
        (summaryLookup acc.1 p t) := by
  induction L with
  | nil => intro acc p t; rfl
  | cons f L ih =>
    intro acc p t
    rw [List.foldl_cons, ih]
    simp only [lastMatch]
    cases hL : lastMatch p t L with
    | some g0 => simp [orE]
    | none =>
      by_cases hf : parse_filename f.path = (p, t)
      · rw [if_pos hf]
        have h1 : (parse_filename f.path).1 = p := by rw [hf]
        have h2 : (parse_filename f.path).2 = t := by rw [hf]
        simp only [step2]
        rw [h1, h2, summaryLookup_set_self]
        rfl
      · rw [if_neg hf]
        have hne : ¬((parse_filename f.path).1 = p ∧
            (parse_filename f.path).2 = t) := by
          intro he
          apply hf
          rw [← he.1, ← he.2]
        simp only [step2]
        rw [summaryLookup_set_ne _ _ _ _ _ _ hne]
        rfl

/-- Claim C4: the final summary entry for a (phenotype, category) pair
holds the condensed values of whichever matching file sorts last by
path; files are folded in sorted-path order, so the result is a
function of the file set alone. -/
theorem claim_C4 (files : List REMLFile) (p t : Str) :
    summaryLookup (buildTables files).1 p t =
      (lastMatch p t (sortFiles files)).map
        (fun f => condense (parse_reml_file f.lines)) := by
  unfold buildTables
  rw [foldl_summary]
  exact orE_none_right _

/-- Claim C5: when the file-selection pattern matches zero files, the
run warns, produces no output workbook, and ends normally. -/
theorem claim_C5 (out : Str) (libs : Bool) :
    (mainRun [] out libs).output = none ∧
    (mainRun [] out libs).events = [Event.warnedEmpty] ∧
    (mainRun [] out libs).normalExit = true :=
  ⟨rfl, rfl, rfl⟩

/-- Claim C3, counterexample: with the rendering libraries unavailable,
the run on one input file first reads (and parses) that file, and only
then hits the dependency error — the import check is not performed at
startup before any input file is read. -/
theorem claim_C3_counterexample :
    (mainRun [⟨"a.b.reml".toList, ["x".toList]⟩] ("out.xlsx".toList)
        false).events =
      [Event.readFile ("a.b.reml".toList), Event.depError] ∧
    (mainRun [⟨"a.b.reml".toList, ["x".toList]⟩] ("out.xlsx".toList)
        false).events.head? ≠ some Event.depError := by
  constructor
  · decide
  · decide

/-- Claim C3 (amended): if the two spreadsheet-rendering libraries are
unavailable, the run detects this only after reading and parsing all the
input files (not at startup); it reports the missing dependency, ends
normally, and produces no output workbook. -/
theorem claim_C3_amended (files : List REMLFile) (out : Str)
    (h : files ≠ []) :
    (mainRun files out false).output = none ∧
    (mainRun files out false).events =
      (sortFiles files).map (fun f => Event.readFile f.path) ++
        [Event.depError] ∧
    (mainRun files out false).normalExit = true := by
  have hne : files.isEmpty = false := by
    cases files with
    | nil => exact absurd rfl h
    | cons a l => rfl
  simp [mainRun, hne]

/-- Witness for claim C3 (amended) at a single-file run. -/
theorem claim_C3_witness :
    (mainRun [⟨"p.q.reml".toList, ([] : List Str)⟩] ("o".toList)
        false).output = none ∧
    (mainRun [⟨"p.q.reml".toList, ([] : List Str)⟩] ("o".toList)
        false).events =
      (sortFiles [⟨"p.q.reml".toList, ([] : List Str)⟩]).map
        (fun f => Event.readFile f.path) ++ [Event.depError] ∧
    (mainRun [⟨"p.q.reml".toList, ([] : List Str)⟩] ("o".toList)
        false).normalExit = true :=
  claim_C3_amended [⟨"p.q.reml".toList, ([] : List Str)⟩] ("o".toList)
    (by decide)

/-- Claim C7, counterexample: a run that produces an output document but
whose files contain no recognized component yields an empty DetailTable,
and pandas derives the detailed sheet's columns from the (empty) list of
row dicts — the header row is empty, not the nine column names. -/
theorem claim_C7_counterexample :
    ((mainRun [⟨"A.X.reml".toList, ["hello".toList]⟩] ("o".toList)
        true).output.map Workbook.detailHeader) = some [] ∧
    ((mainRun [⟨"A.X.reml".toList, ["hello".toList]⟩] ("o".toList)
        true).output.map Workbook.detailHeader) ≠ some detailColumnNames := by
  constructor
  · decide
  · decide

/-- Claim C7 (amended): for every run that produces an output document
and whose DetailTable is nonempty, the detailed sheet's header row lists
exactly the nine column names Phenotype, Type, Component, Converged,
Heritability, SE, Size, Mega_Intensity, SE_2, followed by one row per
DetailTable entry in accumulated order; when the DetailTable is empty
the header row is empty. -/
theorem claim_C7_amended (files : List REMLFile) (out : Str)
    (h : files ≠ []) (hd : (buildTables files).2 ≠ []) :
    (mainRun files out true).output =
      some { summary := (buildTables files).1,
             detailHeader := detailColumnNames,
             detailRows := (buildTables files).2 } := by
  have hne : files.isEmpty = false := by
    cases files with
    | nil => exact absurd rfl h
    | cons a l => rfl
  simp only [mainRun, hne, Bool.false_eq_true, if_false, if_true]
  cases hdd : (buildTables files).2 with
  | nil => exact absurd hdd hd
  | cons a l => rfl

/-- Witness for claim C7 (amended) at a run with one Her_K1 row. -/
theorem claim_C7_witness :
    (mainRun [⟨"A.X.reml".toList,
        ["Component Heritability".toList, "Her_K1 0.5".toList]⟩]
        ("o".toList) true).output =
      some { summary := (buildTables [⟨"A.X.reml".toList,
               ["Component Heritability".toList, "Her_K1 0.5".toList]⟩]).1,
             detailHeader := detailColumnNames,
             detailRows := (buildTables [⟨"A.X.reml".toList,
               ["Component Heritability".toList, "Her_K1 0.5".toList]⟩]).2 } :=
  claim_C7_amended _ _ (by decide) (by decide)

example : parse_filename (['G','Y','P','.','S','V','.','r','e','m','l']) =
    (['G','Y','P'], ['S','V']) := by decide

example : parse_filename ("X.reml.Q.reml".toList) = ("X".toList, "Q".toList) := by decide

example : pyFloat? (['0','.','5']) = some (mkRat 1 2) := by decide
example : pyFloat? (['5','e','-','1']) = some (mkRat 1 2) := by decide
example : pyFloat? (['x','y']) = none := by decide
example : pyFloat? (['1','.','2','.','3']) = none := by decide
example : pyFloat? (['-','2','.','5']) = some (mkRat (-5) 2) := by decide

example : pySplit ("  Her_K1  0.5 NA ".toList) =
    ["Her_K1".toList, "0.5".toList, "NA".toList] := by decide

example : parse_reml_file [componentKw, ['H','e','r','_','K','1',' ','1']] =
    { converged := none, her_k1 := some [some 1, none, none, none, none],
      her_k2 := none, her_k3 := none, her_all := none } := by decide
